import Mathlib

/-!
Verification of the attribute-parsing pipeline of the `nutype` derive crate.

The token model shallowly embeds `proc_macro2` token trees: identifiers,
punctuation characters, numeric literals (modelled by their value) and
delimited groups.  Source spans are modelled as natural-number identifiers.

Embedded from the repository sources:
  * `nutype_derive/src/string/parse.rs` (`parse_attributes`,
    `parse_raw_attributes`, `parse_sanitize_attrs`, `parse_sanitize_attr`,
    `parse_validate_attrs`, `parse_validation_rule`);
  * `nutype_derive/src/parse.rs` (`parse_type_name_and_inner_type`);
  * `nutype_derive/src/models.rs` (`InnerType`, `NumberType`, `NewtypeMeta`,
    `RawNewtypeMeta`, `TypeNameAndInnerType`).

The crate modules `common/parse.rs`, `string/models.rs` and
`string/validate.rs` are referenced by the sources above but are not part of
the source snapshot; their definitions are modelled from the specification
(each such definition carries a doc comment starting `Modelled from the
spec:`).
-/

namespace Nutype

/-- Source spans (`proc_macro2::Span`), modelled as natural-number ids. -/
abbrev Span := Nat

/-- `Span::call_site()`, modelled as the distinguished span `0`. -/
def callSite : Span := 0

/-- `ident.span().join(other)`: with `proc_macro2`'s default (fallback,
no `span-locations`) configuration `join` returns `Some(*self)`, so the
joined span is the first span. -/
def spanJoin (a _b : Span) : Span := a

/-- Group delimiters of `proc_macro2::Delimiter`. -/
inductive Delim where
  | paren
  | brace
  | bracket
deriving DecidableEq, Repr

/-- A `proc_macro2::TokenTree`.  A numeric literal is modelled by its value
(its `to_string()` is the decimal rendering); non-numeric literals play no
role in the parsing pipeline under verification and are not represented. -/
inductive Tok where
  | ident (name : String) (span : Span)
  | punct (ch : Char) (span : Span)
  | lit (val : Nat) (span : Span)
  | group (delim : Delim) (stream : List Tok) (span : Span)
deriving Repr

/-- The span carried by a token (`TokenTree::span()`). -/
def Tok.span : Tok → Span
  | .ident _ s => s
  | .punct _ s => s
  | .lit _ s => s
  | .group _ _ s => s

/-- Result of `token.to_string() == ","` (from `parse_validation_rule`):
only a lone `,` punctuation token renders as a comma; identifiers, numeric
literals and delimited groups never do. -/
def tokIsCommaStr (t : Tok) : Bool :=
  match t with
  | .punct c _ => c = ','
  | _ => false

/-- Errors: `syn::Error::new(span, msg)` values, or a Rust panic (e.g.
`Option::unwrap` on `None`).  A panic aborts the process; it is kept as a
distinguished outcome so that panic-freedom is statable. -/
inductive PError where
  | err (span : Span) (msg : String)
  | panic (msg : String)
deriving Repr

/-- Is the outcome a panic? -/
def PError.isPanicB : PError → Bool
  | .panic _ => true
  | .err _ _ => false

/-- A result that is either a success or a proper `syn::Error` (no panic). -/
def panicFree {α : Type} : Except PError α → Bool
  | .ok _ => true
  | .error e => !e.isPanicB

/-- Message of `Option::unwrap()` on `None`. -/
def unwrapNoneMsg : String := "called Option::unwrap() on a None value"

/-- An identifier token's payload (`proc_macro2::Ident`). -/
structure Ident where
  name : String
  span : Span
deriving DecidableEq, Repr

/-! ### Token cursor utilities (`common/parse.rs`, not in the snapshot) -/

/-- Modelled from the spec: `isComma(token)` — pure predicate on a single
token's textual form. -/
def is_comma (t : Tok) : Bool :=
  match t with
  | .punct c _ => c = ','
  | _ => false

/-- Modelled from the spec: `isEquals(token)` — pure predicate on a single
token's textual form (named `is_eq` in the source's imports). -/
def is_eq (t : Tok) : Bool :=
  match t with
  | .punct c _ => c = '='
  | _ => false

/-- Modelled from the spec: `try_unwrap_ident` (imported by
`string/parse.rs` from `common/parse.rs`) — unwrap an identifier token or
fail with a span-attributed error. -/
def expectedIdentMsg : String := "Expected an identifier"

/-- Modelled from the spec: unwrap an identifier token or fail. -/
def try_unwrap_ident (t : Tok) : Except PError Ident :=
  match t with
  | .ident n s => .ok ⟨n, s⟩
  | t => .error (.err t.span expectedIdentMsg)

/-- Error message for a missing `=` in `parseValueAsNumber`. -/
def expectedEqMsg : String := "Expected ="

/-- Error message for a missing or non-numeric literal argument. -/
def expectedNumberMsg : String := "Expected a number literal"

/-- Error message for a rejected negative literal argument. -/
def negativeNumberMsg : String := "Expected a non-negative number"

/-- Modelled from the spec: `parseValueAsNumber(tokenIterator)` — expects
and consumes an `=` token, then a single numeric literal token, returning
the literal's value; fails if the literal is missing, is not numeric, or is
negative (a negative literal arrives as a `-` punctuation token followed by
a literal and is explicitly rejected). -/
def parse_value_as_number (ts : List Tok) : Except PError (Nat × List Tok) :=
  match ts with
  | [] => .error (.err callSite expectedEqMsg)
  | t :: rest =>
    if is_eq t then
      match rest with
      | .punct c s :: _ =>
        if c = '-' then .error (.err s negativeNumberMsg)
        else .error (.err s expectedNumberMsg)
      | .lit n _ :: rest2 => .ok (n, rest2)
      | t2 :: _ => .error (.err t2.span expectedNumberMsg)
      | [] => .error (.err t.span expectedNumberMsg)
    else .error (.err t.span expectedEqMsg)

/-- Take the maximal run of tokens before the first separator; return the
run together with the separator's span and the remaining tokens when a
separator was found. -/
def takeRun (sep : Tok → Bool) : List Tok → List Tok × Option (Span × List Tok)
  | [] => ([], none)
  | t :: rest =>
    if sep t then ([], some (t.span, rest))
    else (t :: (takeRun sep rest).1, (takeRun sep rest).2)

/-- Error message for an empty run between separators. -/
def emptyRunMsg : String := "Empty item between separators"

/-- Modelled from the spec: the loop of `splitAndParse`, with explicit fuel
bounding the number of runs.  Each separator consumes one token, so
`ts.length + 1` fuel always suffices (`sapGo_fuel_irrelevant` below); the
out-of-fuel branch is unreachable. -/
def sapGo {α : Type} (sep : Tok → Bool) (p : List Tok → Except PError α) :
    Nat → List Tok → Except PError (List α)
  | 0, _ => .error (.panic outOfFuelMsg)
  | fuel + 1, ts =>
    match takeRun sep ts with
    | (run, none) =>
      match p run with
      | .error e => .error e
      | .ok a => .ok [a]
    | (run, some (sp, rest)) =>
      if run.isEmpty then .error (.err sp emptyRunMsg)
      else
        match p run with
        | .error e => .error e
        | .ok a =>
          match rest with
          | [] => .error (.err sp emptyRunMsg)
          | _ =>
            match sapGo sep p fuel rest with
            | .error e => .error e
            | .ok as => .ok (a :: as)
where
  /-- Fuel-exhaustion marker (proved unreachable). -/
  outOfFuelMsg : String := "out of fuel"

/-- Modelled from the spec: `splitAndParse(tokens, separatorPredicate,
itemParser)` — partitions a flat token sequence into maximal runs separated
by separator tokens, applies the item parser to each run, fails fast on the
first error, and rejects empty runs with an error at the separator's span. -/
def split_and_parse {α : Type} (ts : List Tok) (sep : Tok → Bool)
    (p : List Tok → Except PError α) : Except PError (List α) :=
  match ts with
  | [] => .ok []
  | _ => sapGo sep p (ts.length + 1) ts

/-! ### String rule models (`string/models.rs`, not in the snapshot) -/

/-- Modelled from the spec: `Spanned<T> { span, item }` — a rule descriptor
tagged with the source location it was parsed from. -/
structure Spanned (α : Type) where
  span : Span
  item : α
deriving Repr

/-- Sanitizer rules of the text family (`StringSanitizer` in
`string/models.rs`, re-exported by `models.rs`). `With` carries the opaque
custom-sanitizer token payload verbatim. -/
inductive StringSanitizer where
  | Trim
  | Lowercase
  | Uppercase
  | With (ts : List Tok)
deriving Repr

/-- Validator rules of the text family (`StringValidator`). -/
inductive StringValidator where
  | MaxLen (n : Nat)
  | MinLen (n : Nat)
  | Present
deriving DecidableEq, Repr

/-- Modelled from the spec: spanned sanitizer descriptor. -/
abbrev SpannedStringSanitizer := Spanned StringSanitizer

/-- Modelled from the spec: spanned validator descriptor. -/
abbrev SpannedStringValidator := Spanned StringValidator

/-! ### Models (`models.rs`) -/

/-- `NumberType` — the numeric inner-type kinds.  NOTE: `models.rs` (lines
15–18 of the snapshot) declares this enum with only the `I32` variant, while
`parse.rs` references `NumberType::U8 … NumberType::F64`; the embedding
includes every variant referenced by `parse.rs` (see claim C8: the declared
enum contradicts its use). -/
inductive NumberType where
  | U8 | U16 | U32 | U64 | U128 | Usize
  | I8 | I16 | I32 | I64 | I128 | Isize
  | F32 | F64
deriving DecidableEq, Repr

/-- `InnerType` from `models.rs`. -/
inductive InnerType where
  | String
  | Number (n : NumberType)
deriving DecidableEq, Repr

/-- `TypeNameAndInnerType` from `models.rs` (type name modelled as the
identifier with its span). -/
structure TypeNameAndInnerType where
  type_name : Ident
  inner_type : InnerType
deriving DecidableEq, Repr

/-- `NewtypeMeta` from `models.rs`: the validated model — `From` generates
an infallible constructor (sanitizers only), `TryFrom` a fallible one. -/
inductive NewtypeMeta (S V : Type) where
  | From (sanitizers : List S)
  | TryFrom (sanitizers : List S) (validators : List V)
deriving Repr

/-- `RawNewtypeMeta` from `models.rs`: parsed but not yet validated. -/
structure RawNewtypeMeta (S V : Type) where
  sanitizers : List S
  validators : List V
deriving Repr

/-- Modelled from the spec: the validated string model drops the spans
(spans exist for diagnostics only). -/
abbrev NewtypeStringMeta := NewtypeMeta StringSanitizer StringValidator

/-- Modelled from the spec: the raw string model keeps the spans. -/
abbrev RawNewtypeStringMeta :=
  RawNewtypeMeta SpannedStringSanitizer SpannedStringValidator

/-! ### Attribute shell parser (`common/parse.rs`, not in the snapshot) -/

/-- Error message naming an unknown top-level attribute group. -/
def unknownAttrMsg (n : String) : String := "Unknown attribute `" ++ n ++ "`"

/-- Error message for a group name not followed by a parenthesised group. -/
def expectedGroupMsg : String := "Expected a parenthesized group"

/-- Modelled from the spec: `parse_nutype_attributes` — locate the (at most
one) `sanitize(...)` group and the (at most one) `validate(...)` group in
any order and hand each group's inner token stream to the corresponding
caller-supplied parser; an absent group yields the empty rule list; an
unknown top-level name is a parse error naming the offending identifier. -/
def parse_nutype_attributes {S V : Type}
    (sanParse : List Tok → Except PError (List S))
    (valParse : List Tok → Except PError (List V)) :
    List Tok → Except PError (RawNewtypeMeta S V) :=
  go [] []
where
  go (sans : List S) (vals : List V) :
      List Tok → Except PError (RawNewtypeMeta S V)
    | [] => .ok ⟨sans, vals⟩
    | t :: rest =>
      match try_unwrap_ident t with
      | .error e => .error e
      | .ok id =>
        if id.name = "sanitize" then
          match rest with
          | .group .paren stream _ :: rest2 =>
            match sanParse stream with
            | .error e => .error e
            | .ok s => go s vals rest2
          | _ => .error (.err id.span expectedGroupMsg)
        else if id.name = "validate" then
          match rest with
          | .group .paren stream _ :: rest2 =>
            match valParse stream with
            | .error e => .error e
            | .ok v => go sans v rest2
          | _ => .error (.err id.span expectedGroupMsg)
        else .error (.err id.span (unknownAttrMsg id.name))

/-! ### String rule parsers (`string/parse.rs`) -/

/-- `"Invalid syntax."` from `parse_sanitize_attr`. -/
def invalidSyntaxMsg : String := "Invalid syntax."

/-- `"Invalid syntax for `with`. Missing `=`"` from `parse_sanitize_attr`. -/
def withMissingEqMsg : String := "Invalid syntax for `with`. Missing `=`"

/-- The literal (non-interpolated) message
`"Invalid syntax for `with`. Expected `=`, got `{eq_t}`"`. -/
def withExpectedEqMsg : String :=
  "Invalid syntax for `with`. Expected `=`, got `\x7beq_t\x7d`"

/-- `"Unknown sanitizer `<name>`"` from `parse_sanitize_attr`. -/
def unknownSanitizerMsg (n : String) : String :=
  "Unknown sanitizer `" ++ n ++ "`"

/-- `parse_sanitize_attr` from `string/parse.rs`: parse one comma-separated
run as a single sanitizer rule. -/
def parse_sanitize_attr (tokens : List Tok) : Except PError SpannedStringSanitizer :=
  match tokens with
  | .ident name s :: rest =>
    if name = "trim" then .ok ⟨s, .Trim⟩
    else if name = "lowercase" then .ok ⟨s, .Lowercase⟩
    else if name = "uppercase" then .ok ⟨s, .Uppercase⟩
    else if name = "with" then
      match rest with
      | [] => .error (.err s withMissingEqMsg)
      | eq_t :: rest2 =>
        if is_eq eq_t then .ok ⟨s, .With rest2⟩
        else .error (.err (spanJoin s eq_t.span) withExpectedEqMsg)
    else .error (.err s (unknownSanitizerMsg name))
  | _ => .error (.err callSite invalidSyntaxMsg)

/-- `parse_sanitize_attrs` from `string/parse.rs`. -/
def parse_sanitize_attrs (stream : List Tok) :
    Except PError (List SpannedStringSanitizer) :=
  split_and_parse stream is_comma parse_sanitize_attr

/-- `"Unknown validation rule `<name>`"` from `parse_validation_rule`. -/
def unknownValidationRuleMsg (n : String) : String :=
  "Unknown validation rule `" ++ n ++ "`"

/-- Rule-name dispatch of `parse_validation_rule` (the body after the
comma-skipping step), on the rule-leading token and the remaining iterator. -/
def parseValidationRuleStep (token : Tok) (iter : List Tok) :
    Except PError (Option (SpannedStringValidator × List Tok)) :=
  match try_unwrap_ident token with
  | .error e => .error e
  | .ok id =>
    if id.name = "max_len" then
      match parse_value_as_number iter with
      | .error e => .error e
      | .ok (v, it) => .ok (some (⟨id.span, .MaxLen v⟩, it))
    else if id.name = "min_len" then
      match parse_value_as_number iter with
      | .error e => .error e
      | .ok (v, it) => .ok (some (⟨id.span, .MinLen v⟩, it))
    else if id.name = "present" then
      .ok (some (⟨id.span, .Present⟩, iter))
    else .error (.err id.span (unknownValidationRuleMsg id.name))

/-- `parse_validation_rule` from `string/parse.rs`: take the next token,
skip it when it is a comma (`token.to_string() == ","`) — where the source
calls `iter.next().unwrap()`, an exhausted iterator is a panic — then
dispatch on the rule name. -/
def parse_validation_rule (ts : List Tok) :
    Except PError (Option (SpannedStringValidator × List Tok)) :=
  match ts with
  | [] => .ok none
  | t0 :: rest0 =>
    if tokIsCommaStr t0 then
      match rest0 with
      | [] => .error (.panic unwrapNoneMsg)
      | t1 :: rest1 => parseValidationRuleStep t1 rest1
    else parseValidationRuleStep t0 rest0

/-- The `while let` loop of `parse_validate_attrs`, with explicit fuel
bounding the number of iterations.  Each successful `parse_validation_rule`
consumes at least one token (`parse_validation_rule_drop` below), so
`ts.length + 1` fuel always suffices; the out-of-fuel branch is
unreachable. -/
def pvaGo : Nat → List Tok → Except PError (List SpannedStringValidator)
  | 0, _ => .error (.panic pvaOutOfFuelMsg)
  | fuel + 1, ts =>
    match parse_validation_rule ts with
    | .error e => .error e
    | .ok none => .ok []
    | .ok (some (v, rest)) =>
      match pvaGo fuel rest with
      | .error e => .error e
      | .ok out => .ok (v :: out)
where
  /-- Fuel-exhaustion marker (proved unreachable). -/
  pvaOutOfFuelMsg : String := "out of fuel"

/-- `parse_validate_attrs` from `string/parse.rs`. -/
def parse_validate_attrs (stream : List Tok) :
    Except PError (List SpannedStringValidator) :=
  pvaGo (stream.length + 1) stream

/-! ### Semantic validator (`string/validate.rs`, not in the snapshot) -/

/-- Error message for a duplicated `max_len` rule. -/
def dupMaxLenMsg : String := "Duplicated max_len"

/-- Error message for a duplicated `min_len` rule. -/
def dupMinLenMsg : String := "Duplicated min_len"

/-- Error message for a duplicated `present` rule. -/
def dupPresentMsg : String := "Duplicated present"

/-- Error message for an unsatisfiable length range. -/
def maxSmallerMinMsg : String := "max_len cannot be smaller than min_len"

/-- Modelled from the spec: the validator-checking loop of
`validate_string_meta` — walk the validators in declaration order keeping
the `max_len` value, `min_len` value and `present` flag seen so far; a
duplicate single-occurrence rule and an unsatisfiable `max_len`/`min_len`
pair are both flagged at the span of whichever rule is parsed second. -/
def checkValidators : List SpannedStringValidator →
    Option Nat → Option Nat → Bool → Except PError Unit
  | [], _, _, _ => .ok ()
  | v :: rest, maxS, minS, pres =>
    match v.item with
    | .MaxLen m =>
      match maxS with
      | some _ => .error (.err v.span dupMaxLenMsg)
      | none =>
        match minS with
        | some n =>
          if m < n then .error (.err v.span maxSmallerMinMsg)
          else checkValidators rest (some m) minS pres
        | none => checkValidators rest (some m) minS pres
    | .MinLen n =>
      match minS with
      | some _ => .error (.err v.span dupMinLenMsg)
      | none =>
        match maxS with
        | some m =>
          if m < n then .error (.err v.span maxSmallerMinMsg)
          else checkValidators rest maxS (some n) pres
        | none => checkValidators rest maxS (some n) pres
    | .Present =>
      if pres then .error (.err v.span dupPresentMsg)
      else checkValidators rest maxS minS true

/-- Modelled from the spec: `validate_string_meta(RawNewtypeStringMeta) ->
Result<NewtypeStringMeta, Error>` — semantic validation; when the validator
sequence is empty the result is the infallible `From` variant, otherwise the
fallible `TryFrom` variant; sanitizers pass through unchanged in order. -/
def validate_string_meta (raw : RawNewtypeStringMeta) :
    Except PError NewtypeStringMeta :=
  match checkValidators raw.validators none none false with
  | .error e => .error e
  | .ok _ =>
    match raw.validators with
    | [] => .ok (.From (raw.sanitizers.map (·.item)))
    | _ => .ok (.TryFrom (raw.sanitizers.map (·.item))
        (raw.validators.map (·.item)))

/-- `parse_raw_attributes` from `string/parse.rs`. -/
def parse_raw_attributes (input : List Tok) : Except PError RawNewtypeStringMeta :=
  parse_nutype_attributes parse_sanitize_attrs parse_validate_attrs input

/-- `parse_attributes` from `string/parse.rs`:
`parse_raw_attributes(input).and_then(validate_string_meta)`. -/
def parse_attributes (input : List Tok) : Except PError NewtypeStringMeta :=
  match parse_raw_attributes input with
  | .error e => .error e
  | .ok raw => validate_string_meta raw

/-! ### Inner-type classifier (`parse.rs`)

`parse_type_name_and_inner_type` first runs
`syn::parse::<DeriveInput>(token_stream).unwrap()`; that external `syn`
parsing step is outside this embedding, which starts from the resulting
`DeriveInput` (the `unwrap` panics on token streams that are not a
parseable item). -/

/-- The declared type of a field: a `syn::Type::Path` — modelled by its
`into_token_stream().to_string()` rendering — or any other `syn::Type`. -/
inductive SynType where
  | path (rendered : String) (span : Span)
  | other (span : Span)
deriving DecidableEq, Repr

/-- A `syn` field; `span` is the field's span (`seg.span()`). -/
structure SynField where
  ty : SynType
  span : Span
deriving DecidableEq, Repr

/-- `syn::Fields`: unnamed (tuple-style), named, or unit. -/
inductive SynFields where
  | unnamed (fields : List SynField)
  | named
  | unit
deriving DecidableEq, Repr

/-- `syn::Data`: struct (with its fields), enum or union. -/
inductive SynData where
  | dataStruct (fields : SynFields)
  | dataEnum
  | dataUnion
deriving DecidableEq, Repr

/-- A `syn::DeriveInput`: the type's identifier (with its span), the span of
the whole item (`input.span()`), and its data. -/
structure DeriveInput where
  ident : String
  identSpan : Span
  span : Span
  data : SynData
deriving DecidableEq, Repr

/-- `"#[nutype] can be used only with tuple structs."` from `parse.rs`. -/
def onlyTupleStructsMsg : String := "#[nutype] can be used only with tuple structs."

/-- `"#[nutype] requires a simple inner type (e.g. String, i32, etc.)"`. -/
def simpleInnerTypeMsg : String :=
  "#[nutype] requires a simple inner type (e.g. String, i32, etc.)"

/-- `"#[nutype] does not support `<tp>` as inner type"` from `parse.rs`. -/
def unsupportedInnerTypeMsg (tp : String) : String :=
  "#[nutype] does not support `" ++ tp ++ "` as inner type"

/-- The closed vocabulary match on the rendered type-path string in
`parse_type_name_and_inner_type` (`parse.rs` lines 52–75). -/
def classifyInnerType (tp : String) : Option InnerType :=
  if tp = "String" then some .String
  else if tp = "u8" then some (.Number .U8)
  else if tp = "u16" then some (.Number .U16)
  else if tp = "u32" then some (.Number .U32)
  else if tp = "u64" then some (.Number .U64)
  else if tp = "u128" then some (.Number .U128)
  else if tp = "usize" then some (.Number .Usize)
  else if tp = "i8" then some (.Number .I8)
  else if tp = "i16" then some (.Number .I16)
  else if tp = "i32" then some (.Number .I32)
  else if tp = "i64" then some (.Number .I64)
  else if tp = "i128" then some (.Number .I128)
  else if tp = "isize" then some (.Number .Isize)
  else if tp = "f32" then some (.Number .F32)
  else if tp = "f64" then some (.Number .F64)
  else none

/-- `parse_type_name_and_inner_type` from `parse.rs`, starting from the
parsed `DeriveInput`: non-struct data and non-tuple fields are rejected at
the whole item's span; the first unnamed field is taken with
`iter().next().unwrap()` — a panic when the tuple struct has no fields —
and its rendered type is classified by the closed vocabulary. -/
def parse_type_name_and_inner_type (input : DeriveInput) :
    Except PError TypeNameAndInnerType :=
  match input.data with
  | .dataEnum => .error (.err input.span onlyTupleStructsMsg)
  | .dataUnion => .error (.err input.span onlyTupleStructsMsg)
  | .dataStruct fields =>
    match fields with
    | .named => .error (.err input.span onlyTupleStructsMsg)
    | .unit => .error (.err input.span onlyTupleStructsMsg)
    | .unnamed [] => .error (.panic unwrapNoneMsg)
    | .unnamed (seg :: _) =>
      match seg.ty with
      | .other _ => .error (.err seg.span simpleInnerTypeMsg)
      | .path tp _ =>
        match classifyInnerType tp with
        | some inner => .ok ⟨⟨input.ident, input.identSpan⟩, inner⟩
        | none => .error (.err seg.span (unsupportedInnerTypeMsg tp))

/-! ### Rule-declaration rendering (for the order-preservation claim)

A rule sequence as written by the user is modelled by the spanned rule
descriptors it declares; rendering produces the token stream the user wrote:
rule runs joined by commas, each run being the rule's leading identifier
followed by its arguments. -/

/-- Rule-name identifiers as written in the attribute surface. -/
def nTrim : String := "trim"

/-- The `lowercase` rule name. -/
def nLowercase : String := "lowercase"

/-- The `uppercase` rule name. -/
def nUppercase : String := "uppercase"

/-- The `with` rule name. -/
def nWith : String := "with"

/-- The `max_len` rule name. -/
def nMaxLen : String := "max_len"

/-- The `min_len` rule name. -/
def nMinLen : String := "min_len"

/-- The `present` rule name. -/
def nPresent : String := "present"

/-- The `sanitize` group name. -/
def nSanitize : String := "sanitize"

/-- The `validate` group name. -/
def nValidate : String := "validate"

/-- The token run declaring one sanitizer rule, its leading identifier at
the descriptor's span. -/
def renderSanitizer (s : SpannedStringSanitizer) : List Tok :=
  match s.item with
  | .Trim => [.ident nTrim s.span]
  | .Lowercase => [.ident nLowercase s.span]
  | .Uppercase => [.ident nUppercase s.span]
  | .With w => .ident nWith s.span :: .punct '=' 0 :: w

/-- Comma-joined sanitizer rule runs in declaration order. -/
def renderSanitizers : List SpannedStringSanitizer → List Tok
  | [] => []
  | [s] => renderSanitizer s
  | s :: rest => renderSanitizer s ++ .punct ',' 0 :: renderSanitizers rest

/-- The token run declaring one validator rule. -/
def renderValidator (v : SpannedStringValidator) : List Tok :=
  match v.item with
  | .MaxLen n => [.ident nMaxLen v.span, .punct '=' 0, .lit n 0]
  | .MinLen n => [.ident nMinLen v.span, .punct '=' 0, .lit n 0]
  | .Present => [.ident nPresent v.span]

/-- Comma-joined validator rule runs in declaration order. -/
def renderValidators : List SpannedStringValidator → List Tok
  | [] => []
  | [v] => renderValidator v
  | v :: rest => renderValidator v ++ .punct ',' 0 :: renderValidators rest

/-- The full attribute stream `sanitize(...) validate(...)`. -/
def renderAttributeStream (sans : List SpannedStringSanitizer)
    (vals : List SpannedStringValidator) : List Tok :=
  [.ident nSanitize 0, .group .paren (renderSanitizers sans) 0,
   .ident nValidate 0, .group .paren (renderValidators vals) 0]

/-- A declared sanitizer renders to a well-formed comma-separated run: a
`with` payload may not contain a top-level comma token. -/
def sanitizerRenderable (s : SpannedStringSanitizer) : Bool :=
  match s.item with
  | .With w => w.all (fun t => !is_comma t)
  | _ => true

/-- All declared sanitizers are renderable. -/
def sanitizersRenderable (ss : List SpannedStringSanitizer) : Bool :=
  ss.all sanitizerRenderable

/-- Is the rule a `max_len` rule? -/
def isMaxLen : StringValidator → Bool
  | .MaxLen _ => true
  | _ => false

/-- Is the rule a `min_len` rule? -/
def isMinLen : StringValidator → Bool
  | .MinLen _ => true
  | _ => false

/-- Is the rule a `present` rule? -/
def isPresent : StringValidator → Bool
  | .Present => true
  | _ => false

/-- Semantic validity of a declared validator sequence: each
single-occurrence rule occurs at most once and any declared `min_len` value
is at most any declared `max_len` value (a satisfiable length range). -/
def validatorsSemOk (vs : List StringValidator) : Prop :=
  vs.countP isMaxLen ≤ 1 ∧ vs.countP isMinLen ≤ 1 ∧ vs.countP isPresent ≤ 1 ∧
  ∀ m n, StringValidator.MaxLen m ∈ vs → StringValidator.MinLen n ∈ vs → n ≤ m

/-- Does the token list end with a comma token?  (The trailing-comma shape
on which `parse_validation_rule`'s `iter.next().unwrap()` panics.) -/
def endsWithComma (ts : List Tok) : Bool :=
  match ts.getLast? with
  | some t => is_comma t
  | none => false

/-- Is the item a tuple struct with zero fields?  (The shape on which
`parse_type_name_and_inner_type`'s `iter().next().unwrap()` panics.) -/
def isZeroFieldTupleStruct (input : DeriveInput) : Bool :=
  match input.data with
  | .dataStruct (.unnamed []) => true
  | _ => false

/-- No top-level delimited group carries a stream ending in a comma.  (The
streams handed to the rule parsers by the attribute shell are exactly the
top-level group streams.) -/
def topLevelGroupsCommaSafe (ts : List Tok) : Bool :=
  ts.all fun t =>
    match t with
    | .group _ stream _ => !endsWithComma stream
    | _ => true

/-! ### Concrete names used in example inputs -/

/-- An example custom-sanitizer function name. -/
def nFoo : String := "foo"

/-- An example generated-type name. -/
def nPair : String := "Pair"

/-- The `String` inner-type spelling. -/
def tString : String := "String"

/-- The `u8` inner-type spelling. -/
def tU8 : String := "u8"

/-- The `u16` inner-type spelling. -/
def tU16 : String := "u16"

/-- The `u32` inner-type spelling. -/
def tU32 : String := "u32"

/-- The `u64` inner-type spelling. -/
def tU64 : String := "u64"

/-- The `u128` inner-type spelling. -/
def tU128 : String := "u128"

/-- The `usize` inner-type spelling. -/
def tUsize : String := "usize"

/-- The `i8` inner-type spelling. -/
def tI8 : String := "i8"

/-- The `i16` inner-type spelling. -/
def tI16 : String := "i16"

/-- The `i32` inner-type spelling. -/
def tI32 : String := "i32"

/-- The `i64` inner-type spelling. -/
def tI64 : String := "i64"

/-- The `i128` inner-type spelling. -/
def tI128 : String := "i128"

/-- The `isize` inner-type spelling. -/
def tIsize : String := "isize"

/-- The `f32` inner-type spelling. -/
def tF32 : String := "f32"

/-- The `f64` inner-type spelling. -/
def tF64 : String := "f64"

/-- An unsupported inner-type spelling. -/
def tFoo : String := "Foo"

/-- The closed list of recognized inner-type spellings. -/
def innerTypeVocabulary : List String :=
  [tString, tU8, tU16, tU32, tU64, tU128, tUsize,
   tI8, tI16, tI32, tI64, tI128, tIsize, tF32, tF64]

end Nutype

namespace Nutype

/-! ## Theorems -/

/-! ### Helper lemmas -/

/-- A token on which `is_eq` holds is an `=` punctuation token. -/
theorem is_eq_shape {t : Tok} (h : is_eq t = true) : ∃ s, t = .punct '=' s := by
  match t with
  | .punct c s =>
    simp [is_eq] at h
    exact ⟨s, by rw [h]⟩
  | .ident n s => simp [is_eq] at h
  | .lit v s => simp [is_eq] at h
  | .group d g s => simp [is_eq] at h

/-- A token on which `tokIsCommaStr` holds is a `,` punctuation token. -/
theorem tokIsCommaStr_shape {t : Tok} (h : tokIsCommaStr t = true) :
    ∃ s, t = .punct ',' s := by
  match t with
  | .punct c s =>
    simp [tokIsCommaStr] at h
    exact ⟨s, by rw [h]⟩
  | .ident n s => simp [tokIsCommaStr] at h
  | .lit v s => simp [tokIsCommaStr] at h
  | .group d g s => simp [tokIsCommaStr] at h

/-- An error produced inside a panic-free result is a proper `syn::Error`. -/
theorem panicFree_error {α : Type} {r : Except PError α} {e : PError}
    (hr : panicFree r = true) (h : r = .error e) : e.isPanicB = false := by
  subst h
  simpa [panicFree] using hr

/-- A successful `parse_value_as_number` consumed exactly an `=` token and a
numeric literal carrying the returned value. -/
theorem parse_value_as_number_shape {ts rest : List Tok} {n : Nat}
    (h : parse_value_as_number ts = .ok (n, rest)) :
    ∃ s1 s2, ts = .punct '=' s1 :: .lit n s2 :: rest := by
  match ts with
  | [] => simp [parse_value_as_number] at h
  | .ident nm s :: r => simp [parse_value_as_number, is_eq] at h
  | .lit v s :: r => simp [parse_value_as_number, is_eq] at h
  | .group d g s :: r => simp [parse_value_as_number, is_eq] at h
  | .punct c s :: r =>
    by_cases hc : c = '='
    · subst hc
      match r with
      | [] => simp [parse_value_as_number, is_eq] at h
      | .ident nm s2 :: r2 => simp [parse_value_as_number, is_eq, Tok.span] at h
      | .group d g s2 :: r2 => simp [parse_value_as_number, is_eq, Tok.span] at h
      | .punct c2 s2 :: r2 =>
        by_cases hneg : c2 = '-' <;>
          simp [parse_value_as_number, is_eq, hneg] at h
      | .lit v s2 :: r2 =>
        simp [parse_value_as_number, is_eq] at h
        exact ⟨s, s2, by rw [h.1, h.2]⟩
    · simp [parse_value_as_number, is_eq, hc] at h

/-- `parse_value_as_number` never panics. -/
theorem parse_value_as_number_panicFree (ts : List Tok) :
    panicFree (parse_value_as_number ts) = true := by
  unfold parse_value_as_number
  repeat' split
  all_goals rfl

/-- `try_unwrap_ident` never panics. -/
theorem try_unwrap_ident_panicFree (t : Tok) :
    panicFree (try_unwrap_ident t) = true := by
  unfold try_unwrap_ident
  split
  all_goals rfl

/-- `parse_sanitize_attr` never panics. -/
theorem parse_sanitize_attr_panicFree (run : List Tok) :
    panicFree (parse_sanitize_attr run) = true := by
  unfold parse_sanitize_attr
  repeat' split
  all_goals rfl

/-- `parseValidationRuleStep` never panics. -/
theorem parseValidationRuleStep_panicFree (t : Tok) (iter : List Tok) :
    panicFree (parseValidationRuleStep t iter) = true := by
  unfold parseValidationRuleStep
  split
  · rename_i e he
    simpa [panicFree] using panicFree_error (try_unwrap_ident_panicFree t) he
  · repeat' split
    all_goals first
      | rfl
      | (rename_i e he
         simpa [panicFree] using
           panicFree_error (parse_value_as_number_panicFree iter) he)

/-- A successful rule produced by `parseValidationRuleStep` is led by an
identifier token whose span is the rule's span, and the remaining iterator
is the input iterator or the input iterator minus the consumed `= <lit>`. -/
theorem parseValidationRuleStep_shape {t : Tok} {iter rest : List Tok}
    {v : SpannedStringValidator}
    (h : parseValidationRuleStep t iter = .ok (some (v, rest))) :
    (∃ name, t = .ident name v.span) ∧ (rest = iter ∨ rest = iter.drop 2) := by
  match t with
  | .punct c s => simp [parseValidationRuleStep, try_unwrap_ident, Tok.span] at h
  | .lit n s => simp [parseValidationRuleStep, try_unwrap_ident, Tok.span] at h
  | .group d g s => simp [parseValidationRuleStep, try_unwrap_ident, Tok.span] at h
  | .ident nm s =>
    simp only [parseValidationRuleStep, try_unwrap_ident] at h
    split at h
    · -- max_len
      split at h
      · simp_all
      · rename_i val it hv
        simp only [Except.ok.injEq, Option.some.injEq, Prod.mk.injEq] at h
        obtain ⟨hv2, hrest⟩ := h
        obtain ⟨s1, s2, hiter⟩ := parse_value_as_number_shape hv
        refine ⟨⟨nm, by rw [← hv2]⟩, Or.inr ?_⟩
        rw [hiter, ← hrest]
        rfl
    · split at h
      · -- min_len
        split at h
        · simp_all
        · rename_i val it hv
          simp only [Except.ok.injEq, Option.some.injEq, Prod.mk.injEq] at h
          obtain ⟨hv2, hrest⟩ := h
          obtain ⟨s1, s2, hiter⟩ := parse_value_as_number_shape hv
          refine ⟨⟨nm, by rw [← hv2]⟩, Or.inr ?_⟩
          rw [hiter, ← hrest]
          rfl
      · split at h
        · -- present
          simp only [Except.ok.injEq, Option.some.injEq, Prod.mk.injEq] at h
          obtain ⟨hv2, hrest⟩ := h
          exact ⟨⟨nm, by rw [← hv2]⟩, Or.inl hrest.symm⟩
        · simp at h

/-- A successful rule produced by `parse_validation_rule` is led by its
identifier (possibly after one skipped comma), and the remaining iterator
drops at least one token of the input. -/
theorem parse_validation_rule_shape {ts rest : List Tok}
    {v : SpannedStringValidator}
    (h : parse_validation_rule ts = .ok (some (v, rest))) :
    ((∃ name r0, ts = .ident name v.span :: r0) ∨
     (∃ cs name r0, ts = .punct ',' cs :: .ident name v.span :: r0)) ∧
    ∃ k, 0 < k ∧ rest = ts.drop k := by
  match ts with
  | [] => simp [parse_validation_rule] at h
  | t0 :: rest0 =>
    simp only [parse_validation_rule] at h
    by_cases hc : tokIsCommaStr t0
    · rw [if_pos hc] at h
      obtain ⟨cs, ht0⟩ := tokIsCommaStr_shape hc
      match rest0 with
      | [] => simp at h
      | t1 :: rest1 =>
        obtain ⟨⟨name, ht1⟩, hrest⟩ := parseValidationRuleStep_shape h
        refine ⟨Or.inr ⟨cs, name, rest1, by rw [ht0, ht1]⟩, ?_⟩
        rcases hrest with hr | hr
        · exact ⟨2, by omega, hr⟩
        · exact ⟨4, by omega, hr⟩
    · rw [if_neg hc] at h
      obtain ⟨⟨name, ht0⟩, hrest⟩ := parseValidationRuleStep_shape h
      refine ⟨Or.inl ⟨name, rest0, by rw [ht0]⟩, ?_⟩
      rcases hrest with hr | hr
      · exact ⟨1, by omega, hr⟩
      · exact ⟨3, by omega, hr⟩

/-- The only shape on which `parse_validation_rule` panics is a lone comma. -/
theorem parse_validation_rule_panic {ts : List Tok} {m : String}
    (h : parse_validation_rule ts = .error (.panic m)) :
    ∃ s, ts = [.punct ',' s] := by
  match ts with
  | [] => simp [parse_validation_rule] at h
  | t0 :: rest0 =>
    simp only [parse_validation_rule] at h
    by_cases hc : tokIsCommaStr t0
    · rw [if_pos hc] at h
      obtain ⟨cs, ht0⟩ := tokIsCommaStr_shape hc
      match rest0 with
      | [] => exact ⟨cs, by rw [ht0]⟩
      | t1 :: rest1 =>
        have := panicFree_error (parseValidationRuleStep_panicFree t1 rest1) h
        simp [PError.isPanicB] at this
    · rw [if_neg hc] at h
      have := panicFree_error (parseValidationRuleStep_panicFree t0 rest0) h
      simp [PError.isPanicB] at this

/-- A nonempty `drop` has the same last element as the original list. -/
theorem getLast?_drop_of_ne_nil {α : Type} {l : List α} {k : Nat}
    (h : l.drop k ≠ []) : (l.drop k).getLast? = l.getLast? := by
  conv_rhs => rw [← List.take_append_drop k l]
  rw [List.getLast?_append_of_ne_nil _ h]

/-- Dropping tokens preserves not-ending-with-a-comma. -/
theorem endsWithComma_drop {ts : List Tok} {k : Nat}
    (h : endsWithComma ts = false) : endsWithComma (ts.drop k) = false := by
  unfold endsWithComma at h ⊢
  cases hd : (ts.drop k).getLast? with
  | none => rfl
  | some t =>
    have hne : ts.drop k ≠ [] := by
      intro hnil
      rw [hnil] at hd
      simp at hd
    rw [getLast?_drop_of_ne_nil hne] at hd
    rw [hd] at h
    exact h

/-- When a separator is found, the remainder after it is shorter than the
input. -/
theorem takeRun_some_length {sep : Tok → Bool} {ts run rest : List Tok}
    {sp : Span} (h : takeRun sep ts = (run, some (sp, rest))) :
    rest.length < ts.length := by
  induction ts generalizing run with
  | nil => simp [takeRun] at h
  | cons t r ih =>
    by_cases hs : sep t
    · simp only [takeRun, if_pos hs, Prod.mk.injEq, Option.some.injEq] at h
      obtain ⟨-, -, hr⟩ := h
      subst hr
      simp
    · simp only [takeRun, if_neg hs, Prod.mk.injEq] at h
      have h2 : takeRun sep r = ((takeRun sep r).1, some (sp, rest)) := by
        rw [← h.2]
      have := ih h2
      simp only [List.length_cons]
      omega

/-- `sapGo` never panics when given sufficient fuel and a panic-free item
parser (one more unit of fuel than tokens always suffices, each separator
consuming a token). -/
theorem sapGo_panicFree {α : Type} {sep : Tok → Bool}
    {p : List Tok → Except PError α} (hp : ∀ run, panicFree (p run) = true) :
    ∀ (fuel : Nat) (ts : List Tok), ts.length < fuel →
      panicFree (sapGo sep p fuel ts) = true := by
  intro fuel
  induction fuel with
  | zero => intro ts h; omega
  | succ f ih =>
    intro ts h
    rw [sapGo]
    split
    · split
      · rename_i e he
        simpa [panicFree] using panicFree_error (hp _) he
      · rfl
    · rename_i htr
      split
      · rfl
      · split
        · rename_i e he
          simpa [panicFree] using panicFree_error (hp _) he
        · split
          · rfl
          · split
            · rename_i e he
              have hlen := takeRun_some_length htr
              simpa [panicFree] using
                panicFree_error (ih _ (by omega)) he
            · rfl

/-- `parse_sanitize_attrs` never panics. -/
theorem parse_sanitize_attrs_panicFree (ts : List Tok) :
    panicFree (parse_sanitize_attrs ts) = true := by
  unfold parse_sanitize_attrs split_and_parse
  split
  · rfl
  · exact sapGo_panicFree parse_sanitize_attr_panicFree _ _ (by omega)

/-- `pvaGo` never panics when given sufficient fuel and a validator stream
not ending in a comma. -/
theorem pvaGo_panicFree :
    ∀ (fuel : Nat) (ts : List Tok), ts.length < fuel →
      endsWithComma ts = false → panicFree (pvaGo fuel ts) = true := by
  intro fuel
  induction fuel with
  | zero => intro ts h _; omega
  | succ f ih =>
    intro ts h hc
    rw [pvaGo]
    split
    · rename_i e he
      cases e with
      | err s m => rfl
      | panic m =>
        exfalso
        obtain ⟨s, hts⟩ := parse_validation_rule_panic he
        rw [hts] at hc
        simp [endsWithComma, is_comma] at hc
    · rfl
    · rename_i v rest he
      split
      · rename_i e2 he2
        obtain ⟨hlead, k, hk, hrest⟩ := parse_validation_rule_shape he
        have hts_ne : ts.length ≠ 0 := by
          rcases hlead with ⟨_, _, hl⟩ | ⟨_, _, _, hl⟩ <;> rw [hl] <;> simp
        have hlen : rest.length < f := by
          rw [hrest, List.length_drop]
          omega
        have hcr : endsWithComma rest = false := by
          rw [hrest]
          exact endsWithComma_drop hc
        simpa [panicFree] using panicFree_error (ih _ hlen hcr) he2
      · rfl

/-- `checkValidators` never panics. -/
theorem checkValidators_panicFree :
    ∀ (vs : List SpannedStringValidator) (maxS minS : Option Nat) (pres : Bool),
      panicFree (checkValidators vs maxS minS pres) = true := by
  intro vs
  induction vs with
  | nil => intro maxS minS pres; rfl
  | cons v rest ih =>
    intro maxS minS pres
    rw [checkValidators]
    repeat' split
    all_goals first | rfl | apply ih

/-- `validate_string_meta` never panics. -/
theorem validate_string_meta_panicFree (raw : RawNewtypeStringMeta) :
    panicFree (validate_string_meta raw) = true := by
  unfold validate_string_meta
  split
  · rename_i e he
    simpa [panicFree] using
      panicFree_error (checkValidators_panicFree _ _ _ _) he
  · split <;> rfl

/-- `parse_validate_attrs` never panics on streams not ending in a comma. -/
theorem parse_validate_attrs_panicFree {ts : List Tok}
    (h : endsWithComma ts = false) :
    panicFree (parse_validate_attrs ts) = true :=
  pvaGo_panicFree _ ts (by omega) h

/-- The shell-parser loop never panics when every top-level group stream
avoids a trailing comma (the loop itself only errors; the rule parsers it
calls are panic-free under that condition). -/
theorem nutypeGo_panicFree :
    ∀ (n : Nat) (ts : List Tok), ts.length ≤ n →
      topLevelGroupsCommaSafe ts = true →
      ∀ (sans : List SpannedStringSanitizer)
        (vals : List SpannedStringValidator),
        panicFree (parse_nutype_attributes.go parse_sanitize_attrs
          parse_validate_attrs sans vals ts) = true := by
  intro n
  induction n with
  | zero =>
    intro ts hlen _ sans vals
    have : ts = [] := List.length_eq_zero.mp (by omega)
    subst this
    rfl
  | succ m ih =>
    intro ts hlen hsafe sans vals
    match ts with
    | [] => rfl
    | t :: rest =>
      rw [parse_nutype_attributes.go]
      split
      · rename_i e he
        simpa [panicFree] using panicFree_error (try_unwrap_ident_panicFree t) he
      · rename_i id hid
        simp only [topLevelGroupsCommaSafe, List.all_cons, Bool.and_eq_true] at hsafe
        split
        · split
          · rename_i stream gsp rest2
            split
            · rename_i e he
              simpa [panicFree] using
                panicFree_error (parse_sanitize_attrs_panicFree stream) he
            · rename_i s hs
              have hsafe2 : topLevelGroupsCommaSafe rest2 = true := by
                have h2 := hsafe.2
                simp only [topLevelGroupsCommaSafe, List.all_cons,
                  Bool.and_eq_true] at h2
                simpa only [topLevelGroupsCommaSafe] using h2.2
              exact ih rest2 (by simp at hlen ⊢; omega) hsafe2 s vals
          · rfl
        · split
          · split
            · rename_i stream gsp rest2
              split
              · rename_i e he
                have hstream : endsWithComma stream = false := by
                  have h1 := hsafe.2
                  simp only [topLevelGroupsCommaSafe, List.all_cons,
                    Bool.and_eq_true] at h1
                  have := h1.1
                  simpa using this
                simpa [panicFree] using
                  panicFree_error (parse_validate_attrs_panicFree hstream) he
              · rename_i v hv
                have hsafe2 : topLevelGroupsCommaSafe rest2 = true := by
                  have h2 := hsafe.2
                  simp only [topLevelGroupsCommaSafe, List.all_cons,
                    Bool.and_eq_true] at h2
                  simpa only [topLevelGroupsCommaSafe] using h2.2
                exact ih rest2 (by simp at hlen ⊢; omega) hsafe2 sans v
            · rfl
          · rfl

/-- `parse_attributes` never panics when every top-level group stream avoids
a trailing comma. -/
theorem parse_attributes_panicFree {ts : List Tok}
    (h : topLevelGroupsCommaSafe ts = true) :
    panicFree (parse_attributes ts) = true := by
  unfold parse_attributes
  split
  · rename_i e he
    have hraw : panicFree (parse_raw_attributes ts) = true :=
      nutypeGo_panicFree ts.length ts (by omega) h [] []
    simpa [panicFree] using panicFree_error hraw he
  · exact validate_string_meta_panicFree _

/-- A successful `parse_sanitize_attr` is led by an identifier token whose
span is the returned descriptor's span. -/
theorem parse_sanitize_attr_ok_shape {ts : List Tok}
    {out : SpannedStringSanitizer} (h : parse_sanitize_attr ts = .ok out) :
    ∃ name rest, ts = .ident name out.span :: rest := by
  match ts with
  | [] => simp [parse_sanitize_attr] at h
  | .punct c s :: r => simp [parse_sanitize_attr] at h
  | .lit v s :: r => simp [parse_sanitize_attr] at h
  | .group d g s :: r => simp [parse_sanitize_attr] at h
  | .ident nm s :: r =>
    refine ⟨nm, r, ?_⟩
    simp only [parse_sanitize_attr] at h
    split_ifs at h with h1 h2 h3 h4
    · simp only [Except.ok.injEq] at h
      rw [← h]
    · simp only [Except.ok.injEq] at h
      rw [← h]
    · simp only [Except.ok.injEq] at h
      rw [← h]
    · split at h
      · simp at h
      · split at h
        · simp only [Except.ok.injEq] at h
          rw [← h]
        · simp at h

/-- `takeRun` returns the whole input when no separator occurs in it. -/
theorem takeRun_of_all_not {sep : Tok → Bool} {run : List Tok}
    (h : ∀ t ∈ run, sep t = false) : takeRun sep run = (run, none) := by
  induction run with
  | nil => rfl
  | cons t r ih =>
    have ht : sep t = false := h t (by simp)
    simp [takeRun, ht, ih (fun x hx => h x (by simp [hx]))]

/-- `takeRun` splits exactly at the first separator. -/
theorem takeRun_append {sep : Tok → Bool} {run rest : List Tok} {s : Tok}
    (h : ∀ t ∈ run, sep t = false) (hs : sep s = true) :
    takeRun sep (run ++ s :: rest) = (run, some (s.span, rest)) := by
  induction run with
  | nil => simp [takeRun, hs]
  | cons t r ih =>
    have ht : sep t = false := h t (by simp)
    simp [takeRun, ht, ih (fun x hx => h x (by simp [hx]))]

/-- A rendered sanitizer run is nonempty. -/
theorem renderSanitizer_ne_nil (s : SpannedStringSanitizer) :
    renderSanitizer s ≠ [] := by
  obtain ⟨sp, item⟩ := s
  cases item <;> simp [renderSanitizer]

/-- A renderable sanitizer's run contains no comma token. -/
theorem renderSanitizer_no_comma {s : SpannedStringSanitizer}
    (h : sanitizerRenderable s = true) :
    ∀ t ∈ renderSanitizer s, is_comma t = false := by
  obtain ⟨sp, item⟩ := s
  cases item with
  | Trim =>
    intro t ht
    simp [renderSanitizer] at ht
    subst ht
    rfl
  | Lowercase =>
    intro t ht
    simp [renderSanitizer] at ht
    subst ht
    rfl
  | Uppercase =>
    intro t ht
    simp [renderSanitizer] at ht
    subst ht
    rfl
  | With w =>
    intro t ht
    simp only [renderSanitizer, List.mem_cons] at ht
    rcases ht with rfl | rfl | hw
    · rfl
    · rfl
    · have hall : ∀ x ∈ w, (!is_comma x) = true := by
        simpa [sanitizerRenderable, List.all_eq_true] using h
      simpa using hall t hw

/-- Parsing a rendered sanitizer run returns the declared descriptor. -/
theorem parse_sanitize_attr_render (s : SpannedStringSanitizer) :
    parse_sanitize_attr (renderSanitizer s) = .ok s := by
  obtain ⟨sp, item⟩ := s
  cases item <;>
    simp [renderSanitizer, parse_sanitize_attr, is_eq,
      nTrim, nLowercase, nUppercase, nWith]

/-- A rendered nonempty sanitizer sequence is a nonempty token stream. -/
theorem renderSanitizers_ne_nil {sans : List SpannedStringSanitizer}
    (h : sans ≠ []) : renderSanitizers sans ≠ [] := by
  match sans with
  | [] => exact absurd rfl h
  | [s] => simpa [renderSanitizers] using renderSanitizer_ne_nil s
  | s :: s' :: tl =>
    simp only [renderSanitizers]
    simp [renderSanitizer_ne_nil s]

/-- The split-and-parse loop maps a rendered sanitizer sequence back to the
declared descriptors, in order. -/
theorem sapGo_renderSanitizers :
    ∀ (sans : List SpannedStringSanitizer) (fuel : Nat),
      sanitizersRenderable sans = true → sans ≠ [] →
      (renderSanitizers sans).length < fuel →
      sapGo is_comma parse_sanitize_attr fuel (renderSanitizers sans) =
        .ok sans := by
  intro sans
  induction sans with
  | nil => intro fuel _ hne _; exact absurd rfl hne
  | cons s tl ih =>
    intro fuel hr hne hf
    have hrs : sanitizerRenderable s = true := by
      simp [sanitizersRenderable, List.all_cons, Bool.and_eq_true] at hr
      exact hr.1
    have hrtl : sanitizersRenderable tl = true := by
      simp [sanitizersRenderable, List.all_cons, Bool.and_eq_true] at hr
      simpa [sanitizersRenderable, List.all_eq_true] using hr.2
    match tl with
    | [] =>
      match fuel with
      | 0 => omega
      | f + 1 =>
        rw [sapGo]
        have h1 : takeRun is_comma (renderSanitizers [s]) =
            (renderSanitizer s, none) :=
          takeRun_of_all_not (renderSanitizer_no_comma hrs)
        rw [h1]
        simp [parse_sanitize_attr_render]
    | s' :: tl' =>
      match fuel with
      | 0 => omega
      | f + 1 =>
        have hstream : renderSanitizers (s :: s' :: tl') =
            renderSanitizer s ++ .punct ',' 0 :: renderSanitizers (s' :: tl') :=
          rfl
        have hempty : (renderSanitizer s).isEmpty = false := by
          have h2 := renderSanitizer_ne_nil s
          match hsr : renderSanitizer s with
          | [] => exact absurd hsr h2
          | _ :: _ => rfl
        have hlen : (renderSanitizers (s' :: tl')).length < f := by
          rw [hstream] at hf
          have h2 := renderSanitizer_ne_nil s
          have h3 : 1 ≤ (renderSanitizer s).length := by
            match hsr : renderSanitizer s with
            | [] => exact absurd hsr h2
            | _ :: _ => simp
          simp only [List.length_append, List.length_cons] at hf
          omega
        have hih := ih f hrtl (by simp) hlen
        obtain ⟨x, xs, hxs⟩ :=
          List.exists_cons_of_ne_nil (renderSanitizers_ne_nil
            (show s' :: tl' ≠ [] by simp))
        rw [sapGo, hstream,
          @takeRun_append is_comma (renderSanitizer s)
            (renderSanitizers (s' :: tl')) (.punct ',' 0)
            (renderSanitizer_no_comma hrs) rfl]
        rw [hxs] at hih
        rw [hxs]
        simp [hempty, parse_sanitize_attr_render, hih]

/-- Parsing a rendered sanitizer sequence returns the declared descriptors,
in order. -/
theorem parse_sanitize_attrs_render {sans : List SpannedStringSanitizer}
    (h : sanitizersRenderable sans = true) :
    parse_sanitize_attrs (renderSanitizers sans) = .ok sans := by
  match hsn : sans with
  | [] => rfl
  | s :: tl =>
    unfold parse_sanitize_attrs split_and_parse
    obtain ⟨x, xs, hxs⟩ :=
      List.exists_cons_of_ne_nil (renderSanitizers_ne_nil
        (show s :: tl ≠ [] by simp))
    rw [hxs]
    change sapGo is_comma parse_sanitize_attr ((x :: xs).length + 1) (x :: xs) =
      .ok (s :: tl)
    rw [← hxs]
    exact sapGo_renderSanitizers (s :: tl) _ h (by simp) (by omega)

/-- A rendered validator sequence led by `v` starts with `v`'s identifier. -/
theorem renderValidators_cons_shape (v : SpannedStringValidator)
    (tl : List SpannedStringValidator) :
    ∃ name r, renderValidators (v :: tl) = .ident name v.span :: r := by
  obtain ⟨sp, item⟩ := v
  match tl with
  | [] => cases item <;> exact ⟨_, _, rfl⟩
  | t :: ts => cases item <;> exact ⟨_, _, rfl⟩

/-- Parsing one rendered validator run (with any suffix) returns the
declared descriptor and the untouched suffix. -/
theorem parse_validation_rule_render (v : SpannedStringValidator)
    (suffix : List Tok) :
    parse_validation_rule (renderValidator v ++ suffix) =
      .ok (some (v, suffix)) := by
  obtain ⟨sp, item⟩ := v
  cases item <;>
    simp [renderValidator, parse_validation_rule, parseValidationRuleStep,
      try_unwrap_ident, tokIsCommaStr, parse_value_as_number, is_eq,
      nMaxLen, nMinLen, nPresent]

/-- One unfolding of the `parse_validate_attrs` loop on a successful rule. -/
theorem pvaGo_step {f : Nat} {ts rest : List Tok} {v : SpannedStringValidator}
    (h : parse_validation_rule ts = .ok (some (v, rest))) :
    pvaGo (f + 1) ts =
      match pvaGo f rest with
      | .error e => .error e
      | .ok out => .ok (v :: out) := by
  rw [pvaGo, h]

/-- The loop on the empty stream returns the empty rule list. -/
theorem pvaGo_nil {f : Nat} (h : 0 < f) : pvaGo f [] = .ok [] := by
  match f with
  | 0 => omega
  | f + 1 => rfl

/-- A comma between validator rules is skipped. -/
theorem pvaGo_comma_cons {f : Nat} {cs s : Span} {name : String}
    {r : List Tok} :
    pvaGo (f + 1) (.punct ',' cs :: .ident name s :: r) =
      pvaGo (f + 1) (.ident name s :: r) := by
  rw [pvaGo, pvaGo]
  have h : parse_validation_rule (.punct ',' cs :: .ident name s :: r) =
      parse_validation_rule (.ident name s :: r) := by
    simp [parse_validation_rule, tokIsCommaStr]
  rw [h]

/-- The validator loop maps a rendered validator sequence back to the
declared descriptors, in order. -/
theorem pvaGo_renderValidators :
    ∀ (vals : List SpannedStringValidator) (fuel : Nat),
      (renderValidators vals).length < fuel →
      pvaGo fuel (renderValidators vals) = .ok vals := by
  intro vals
  induction vals with
  | nil =>
    intro fuel hf
    exact pvaGo_nil (by simpa [renderValidators] using hf)
  | cons v tl ih =>
    intro fuel hf
    have hv1 : 1 ≤ (renderValidator v).length := by
      obtain ⟨sp, item⟩ := v
      cases item <;> simp [renderValidator]
    match tl with
    | [] =>
      match fuel with
      | 0 => omega
      | f + 1 =>
        have hpvr := parse_validation_rule_render v []
        rw [List.append_nil] at hpvr
        have hstream : renderValidators [v] = renderValidator v := rfl
        rw [hstream, pvaGo_step hpvr]
        have hflen : (renderValidator v).length < f + 1 := by
          rw [hstream] at hf
          exact hf
        rw [@pvaGo_nil f (by omega)]
    | t' :: tl' =>
      match fuel with
      | 0 => omega
      | f + 1 =>
        have hstream : renderValidators (v :: t' :: tl') =
            renderValidator v ++
              .punct ',' 0 :: renderValidators (t' :: tl') := rfl
        have hpvr := parse_validation_rule_render v
          (.punct ',' 0 :: renderValidators (t' :: tl'))
        rw [hstream, pvaGo_step hpvr]
        have hlen : (renderValidators (t' :: tl')).length + 1 < f := by
          rw [hstream] at hf
          simp only [List.length_append, List.length_cons] at hf
          omega
        obtain ⟨f2, rfl⟩ : ∃ f2, f = f2 + 1 := ⟨f - 1, by omega⟩
        obtain ⟨name, r, hRr⟩ := renderValidators_cons_shape t' tl'
        rw [hRr, pvaGo_comma_cons, ← hRr, ih (f2 + 1) (by omega)]

/-- Parsing a rendered validator sequence returns the declared descriptors,
in order. -/
theorem parse_validate_attrs_render (vals : List SpannedStringValidator) :
    parse_validate_attrs (renderValidators vals) = .ok vals :=
  pvaGo_renderValidators vals _ (by omega)

/-- The semantic check succeeds on any validator sequence whose counts and
length range are compatible with the already-seen state. -/
theorem checkValidators_ok :
    ∀ (vs : List SpannedStringValidator) (maxS minS : Option Nat) (pres : Bool),
      (vs.map (·.item)).countP isMaxLen + (if maxS.isSome then 1 else 0) ≤ 1 →
      (vs.map (·.item)).countP isMinLen + (if minS.isSome then 1 else 0) ≤ 1 →
      (vs.map (·.item)).countP isPresent + (if pres then 1 else 0) ≤ 1 →
      (∀ m n, (StringValidator.MaxLen m ∈ vs.map (·.item) ∨ maxS = some m) →
        (StringValidator.MinLen n ∈ vs.map (·.item) ∨ minS = some n) →
        n ≤ m) →
      checkValidators vs maxS minS pres = .ok () := by
  intro vs
  induction vs with
  | nil => intro maxS minS pres h1 h2 h3 h4; rfl
  | cons v rest ih =>
    intro maxS minS pres h1 h2 h3 h4
    obtain ⟨sp, item⟩ := v
    match item with
    | .MaxLen m =>
      simp only [List.map_cons, List.mem_cons] at h4
      have hmax : maxS = none := by
        match maxS with
        | none => rfl
        | some q =>
          exfalso
          simp [List.countP_cons, isMaxLen] at h1
      subst hmax
      cases minS with
      | none =>
        have h4r : ∀ m' n',
            (StringValidator.MaxLen m' ∈ rest.map (·.item) ∨ some m = some m') →
            (StringValidator.MinLen n' ∈ rest.map (·.item) ∨
              (none : Option Nat) = some n') →
            n' ≤ m' := by
          intro m' n' hm' hn'
          have hn2 : (StringValidator.MinLen n' = StringValidator.MaxLen m ∨
              StringValidator.MinLen n' ∈ rest.map (·.item)) ∨
              (none : Option Nat) = some n' := by
            rcases hn' with hn' | hn'
            · exact Or.inl (Or.inr hn')
            · exact Or.inr hn'
          rcases hm' with hm' | hm'
          · exact h4 m' n' (Or.inl (Or.inr hm')) hn2
          · obtain rfl : m = m' := by injection hm'
            exact h4 m n' (Or.inl (Or.inl rfl)) hn2
        change checkValidators rest (some m) none pres = .ok ()
        refine ih (some m) none pres ?_ ?_ ?_ h4r
        · simpa [isMaxLen, isMinLen, isPresent] using h1
        · simpa [isMaxLen, isMinLen, isPresent] using h2
        · simpa [isMaxLen, isMinLen, isPresent] using h3
      | some nv =>
        have hle : nv ≤ m := h4 m nv (Or.inl (Or.inl rfl)) (Or.inr rfl)
        have h4r : ∀ m' n',
            (StringValidator.MaxLen m' ∈ rest.map (·.item) ∨ some m = some m') →
            (StringValidator.MinLen n' ∈ rest.map (·.item) ∨
              some nv = some n') →
            n' ≤ m' := by
          intro m' n' hm' hn'
          have hn2 : (StringValidator.MinLen n' = StringValidator.MaxLen m ∨
              StringValidator.MinLen n' ∈ rest.map (·.item)) ∨
              some nv = some n' := by
            rcases hn' with hn' | hn'
            · exact Or.inl (Or.inr hn')
            · exact Or.inr hn'
          rcases hm' with hm' | hm'
          · exact h4 m' n' (Or.inl (Or.inr hm')) hn2
          · obtain rfl : m = m' := by injection hm'
            exact h4 m n' (Or.inl (Or.inl rfl)) hn2
        change (if m < nv then Except.error (PError.err sp maxSmallerMinMsg)
            else checkValidators rest (some m) (some nv) pres) = .ok ()
        rw [if_neg (by omega)]
        refine ih (some m) (some nv) pres ?_ ?_ ?_ h4r
        · simpa [isMaxLen, isMinLen, isPresent] using h1
        · simpa [isMaxLen, isMinLen, isPresent] using h2
        · simpa [isMaxLen, isMinLen, isPresent] using h3
    | .MinLen n =>
      simp only [List.map_cons, List.mem_cons] at h4
      have hmin : minS = none := by
        match minS with
        | none => rfl
        | some q =>
          exfalso
          simp [List.countP_cons, isMinLen] at h2
      subst hmin
      cases maxS with
      | none =>
        have h4r : ∀ m' n',
            (StringValidator.MaxLen m' ∈ rest.map (·.item) ∨
              (none : Option Nat) = some m') →
            (StringValidator.MinLen n' ∈ rest.map (·.item) ∨ some n = some n') →
            n' ≤ m' := by
          intro m' n' hm' hn'
          have hm2 : (StringValidator.MaxLen m' = StringValidator.MinLen n ∨
              StringValidator.MaxLen m' ∈ rest.map (·.item)) ∨
              (none : Option Nat) = some m' := by
            rcases hm' with hm' | hm'
            · exact Or.inl (Or.inr hm')
            · exact Or.inr hm'
          rcases hn' with hn' | hn'
          · exact h4 m' n' hm2 (Or.inl (Or.inr hn'))
          · obtain rfl : n = n' := by injection hn'
            exact h4 m' n hm2 (Or.inl (Or.inl rfl))
        change checkValidators rest none (some n) pres = .ok ()
        refine ih none (some n) pres ?_ ?_ ?_ h4r
        · simpa [isMaxLen, isMinLen, isPresent] using h1
        · simpa [isMaxLen, isMinLen, isPresent] using h2
        · simpa [isMaxLen, isMinLen, isPresent] using h3
      | some mv =>
        have hle : n ≤ mv := h4 mv n (Or.inr rfl) (Or.inl (Or.inl rfl))
        have h4r : ∀ m' n',
            (StringValidator.MaxLen m' ∈ rest.map (·.item) ∨
              some mv = some m') →
            (StringValidator.MinLen n' ∈ rest.map (·.item) ∨ some n = some n') →
            n' ≤ m' := by
          intro m' n' hm' hn'
          have hm2 : (StringValidator.MaxLen m' = StringValidator.MinLen n ∨
              StringValidator.MaxLen m' ∈ rest.map (·.item)) ∨
              some mv = some m' := by
            rcases hm' with hm' | hm'
            · exact Or.inl (Or.inr hm')
            · exact Or.inr hm'
          rcases hn' with hn' | hn'
          · exact h4 m' n' hm2 (Or.inl (Or.inr hn'))
          · obtain rfl : n = n' := by injection hn'
            exact h4 m' n hm2 (Or.inl (Or.inl rfl))
        change (if mv < n then Except.error (PError.err sp maxSmallerMinMsg)
            else checkValidators rest (some mv) (some n) pres) = .ok ()
        rw [if_neg (by omega)]
        refine ih (some mv) (some n) pres ?_ ?_ ?_ h4r
        · simpa [isMaxLen, isMinLen, isPresent] using h1
        · simpa [isMaxLen, isMinLen, isPresent] using h2
        · simpa [isMaxLen, isMinLen, isPresent] using h3
    | .Present =>
      simp only [List.map_cons, List.mem_cons] at h4
      have hpres : pres = false := by
        match pres with
        | false => rfl
        | true =>
          exfalso
          simp [List.countP_cons, isPresent] at h3
      subst hpres
      have h4r : ∀ m' n',
          (StringValidator.MaxLen m' ∈ rest.map (·.item) ∨ maxS = some m') →
          (StringValidator.MinLen n' ∈ rest.map (·.item) ∨ minS = some n') →
          n' ≤ m' := by
        intro m' n' hm' hn'
        apply h4 m' n'
        · rcases hm' with hm' | hm'
          · exact Or.inl (Or.inr hm')
          · exact Or.inr hm'
        · rcases hn' with hn' | hn'
          · exact Or.inl (Or.inr hn')
          · exact Or.inr hn'
      simp [List.countP_cons, isMaxLen, isMinLen, isPresent] at h1 h2 h3
      change checkValidators rest maxS minS true = .ok ()
      refine ih maxS minS true ?_ ?_ ?_ h4r
      · simpa [isMaxLen, isMinLen, isPresent] using h1
      · simpa [isMaxLen, isMinLen, isPresent] using h2
      · simpa [isMaxLen, isMinLen, isPresent] using h3

/-- The semantic validator accepts a semantically valid rule set and builds
the variant dictated by the (in-)existence of validators. -/
theorem validate_string_meta_render {sans : List SpannedStringSanitizer}
    {vals : List SpannedStringValidator}
    (h : validatorsSemOk (vals.map (·.item))) :
    validate_string_meta ⟨sans, vals⟩ =
      .ok (match vals with
        | [] => .From (sans.map (·.item))
        | _ :: _ => .TryFrom (sans.map (·.item)) (vals.map (·.item))) := by
  obtain ⟨c1, c2, c3, c4⟩ := h
  have hchk : checkValidators vals none none false = .ok () := by
    apply checkValidators_ok vals none none false
    · simpa using c1
    · simpa using c2
    · simpa using c3
    · intro m n hm hn
      rcases hm with hm | hm
      · rcases hn with hn | hn
        · exact c4 m n hm hn
        · simp at hn
      · simp at hm
  unfold validate_string_meta
  rw [hchk]
  match vals with
  | [] => rfl
  | _ :: _ => rfl

/-- C1: for the validator token stream `max_len = 13, min_len = 7, present`,
`parse_validate_attrs` succeeds and returns exactly the sequence
`[MaxLen 13, MinLen 7, Present]` in that order (each rule at the span of its
leading identifier). -/
theorem c1_validator_example :
    parse_validate_attrs
      [.ident nMaxLen 1, .punct '=' 2, .lit 13 3, .punct ',' 4,
       .ident nMinLen 5, .punct '=' 6, .lit 7 7, .punct ',' 8,
       .ident nPresent 9] =
    .ok [⟨1, .MaxLen 13⟩, ⟨5, .MinLen 7⟩, ⟨9, .Present⟩] := rfl

/-- C4 (counterexample): the claim says no input causes a panic, but a lone
comma makes `parse_validation_rule`'s `iter.next().unwrap()` panic, so
`parse_validate_attrs` aborts with a panic rather than an error result. -/
theorem c4_lone_comma_panics :
    parse_validate_attrs [.punct ',' 5] = .error (.panic unwrapNoneMsg) ∧
    panicFree (parse_validate_attrs [.punct ',' 5]) = false :=
  ⟨rfl, rfl⟩

/-- C5 (counterexample): the claim says a tuple struct with more than one
field fails with the tuple-structs-only error, but
`parse_type_name_and_inner_type` accepts a two-field tuple struct,
classifying its first field. -/
theorem c5_two_field_tuple_struct_accepted :
    parse_type_name_and_inner_type
      ⟨nPair, 1, 2, .dataStruct (.unnamed
        [⟨.path tI32 3, 4⟩, ⟨.path tI32 5, 6⟩])⟩ =
    .ok ⟨⟨nPair, 1⟩, .Number .I32⟩ := rfl

/-- C6: a `max_len` or `min_len` rule whose `=` is followed by a negative
literal (two tokens, `-` then the literal) makes parsing fail immediately at
the `-` token; accepted numeric arguments are non-negative by construction
(`parse_value_as_number` returns a natural number read from a literal
token). -/
theorem c6_negative_literal_rejected :
    (∀ (s1 s2 s3 : Span) (rest : List Tok),
      parse_validate_attrs
        (.ident nMaxLen s1 :: .punct '=' s2 :: .punct '-' s3 :: rest) =
      .error (.err s3 negativeNumberMsg)) ∧
    (∀ (s1 s2 s3 : Span) (rest : List Tok),
      parse_validate_attrs
        (.ident nMinLen s1 :: .punct '=' s2 :: .punct '-' s3 :: rest) =
      .error (.err s3 negativeNumberMsg)) ∧
    parse_validate_attrs [.ident nMaxLen 1, .punct '=' 2, .punct '-' 3, .lit 1 4] =
      .error (.err 3 negativeNumberMsg) := by
  refine ⟨?_, ?_, rfl⟩ <;>
    intro s1 s2 s3 rest <;>
    simp [parse_validate_attrs, pvaGo, parse_validation_rule,
      parseValidationRuleStep, try_unwrap_ident, parse_value_as_number,
      is_eq, tokIsCommaStr, nMaxLen, nMinLen]

/-- C7: for every validator sequence declaring both rules with a `max_len`
value strictly smaller than a `min_len` value — in either declaration order,
for any value pair, spans, and accompanying sanitizers — parsing succeeds
with both rules in order, but semantic validation of the parsed rule set
fails, flagged at the span of whichever rule is parsed second; the full
`parse_attributes` pipeline on the corresponding `validate(...)` stream
reports the same error. -/
theorem c7_unsatisfiable_range (m n : Nat) (s1 s2 : Span)
    (sans : List SpannedStringSanitizer) (h : m < n) :
    (parse_validate_attrs (renderValidators [⟨s1, .MaxLen m⟩, ⟨s2, .MinLen n⟩]) =
        .ok [⟨s1, .MaxLen m⟩, ⟨s2, .MinLen n⟩] ∧
      validate_string_meta ⟨sans, [⟨s1, .MaxLen m⟩, ⟨s2, .MinLen n⟩]⟩ =
        .error (.err s2 maxSmallerMinMsg)) ∧
    (parse_validate_attrs (renderValidators [⟨s1, .MinLen n⟩, ⟨s2, .MaxLen m⟩]) =
        .ok [⟨s1, .MinLen n⟩, ⟨s2, .MaxLen m⟩] ∧
      validate_string_meta ⟨sans, [⟨s1, .MinLen n⟩, ⟨s2, .MaxLen m⟩]⟩ =
        .error (.err s2 maxSmallerMinMsg)) ∧
    parse_attributes
      [.ident nValidate 0, .group .paren
        (renderValidators [⟨s1, .MaxLen m⟩, ⟨s2, .MinLen n⟩]) 0] =
      .error (.err s2 maxSmallerMinMsg) ∧
    parse_attributes
      [.ident nValidate 0, .group .paren
        (renderValidators [⟨s1, .MinLen n⟩, ⟨s2, .MaxLen m⟩]) 0] =
      .error (.err s2 maxSmallerMinMsg) := by
  have hchk1 : checkValidators [⟨s1, .MaxLen m⟩, ⟨s2, .MinLen n⟩]
      none none false = .error (.err s2 maxSmallerMinMsg) := by
    change (if m < n then Except.error (PError.err s2 maxSmallerMinMsg)
        else checkValidators [] (some m) (some n) false) = _
    rw [if_pos h]
  have hchk2 : checkValidators [⟨s1, .MinLen n⟩, ⟨s2, .MaxLen m⟩]
      none none false = .error (.err s2 maxSmallerMinMsg) := by
    change (if m < n then Except.error (PError.err s2 maxSmallerMinMsg)
        else checkValidators [] (some m) (some n) false) = _
    rw [if_pos h]
  have hval1 : ∀ ss : List SpannedStringSanitizer,
      validate_string_meta ⟨ss, [⟨s1, .MaxLen m⟩, ⟨s2, .MinLen n⟩]⟩ =
      .error (.err s2 maxSmallerMinMsg) := by
    intro ss
    unfold validate_string_meta
    rw [hchk1]
  have hval2 : ∀ ss : List SpannedStringSanitizer,
      validate_string_meta ⟨ss, [⟨s1, .MinLen n⟩, ⟨s2, .MaxLen m⟩]⟩ =
      .error (.err s2 maxSmallerMinMsg) := by
    intro ss
    unfold validate_string_meta
    rw [hchk2]
  have hraw : ∀ vals : List SpannedStringValidator,
      parse_raw_attributes
        [.ident nValidate 0, .group .paren (renderValidators vals) 0] =
      .ok ⟨[], vals⟩ := by
    intro vals
    unfold parse_raw_attributes parse_nutype_attributes
    simp [parse_nutype_attributes.go.eq_def, try_unwrap_ident, nValidate,
      parse_validate_attrs_render]
  refine ⟨⟨parse_validate_attrs_render _, hval1 sans⟩,
    ⟨parse_validate_attrs_render _, hval2 sans⟩, ?_, ?_⟩
  · unfold parse_attributes
    rw [hraw [⟨s1, .MaxLen m⟩, ⟨s2, .MinLen n⟩]]
    exact hval1 []
  · unfold parse_attributes
    rw [hraw [⟨s1, .MinLen n⟩, ⟨s2, .MaxLen m⟩]]
    exact hval2 []

/-- C7 (witness): the unsatisfiable-range statement instantiated at the
spec's example values `max_len = 3, min_len = 10`, in both declaration
orders. -/
theorem c7_unsatisfiable_range_witness :
    (parse_validate_attrs (renderValidators [⟨1, .MaxLen 3⟩, ⟨2, .MinLen 10⟩]) =
        .ok [⟨1, .MaxLen 3⟩, ⟨2, .MinLen 10⟩] ∧
      validate_string_meta ⟨[], [⟨1, .MaxLen 3⟩, ⟨2, .MinLen 10⟩]⟩ =
        .error (.err 2 maxSmallerMinMsg)) ∧
    (parse_validate_attrs (renderValidators [⟨1, .MinLen 10⟩, ⟨2, .MaxLen 3⟩]) =
        .ok [⟨1, .MinLen 10⟩, ⟨2, .MaxLen 3⟩] ∧
      validate_string_meta ⟨[], [⟨1, .MinLen 10⟩, ⟨2, .MaxLen 3⟩]⟩ =
        .error (.err 2 maxSmallerMinMsg)) ∧
    parse_attributes
      [.ident nValidate 0, .group .paren
        (renderValidators [⟨1, .MaxLen 3⟩, ⟨2, .MinLen 10⟩]) 0] =
      .error (.err 2 maxSmallerMinMsg) ∧
    parse_attributes
      [.ident nValidate 0, .group .paren
        (renderValidators [⟨1, .MinLen 10⟩, ⟨2, .MaxLen 3⟩]) 0] =
      .error (.err 2 maxSmallerMinMsg) :=
  c7_unsatisfiable_range 3 10 1 2 [] (by decide)

/-- C9: in a sanitizer run led by `with`, a missing following token is an
error, a following non-`=` token is an error, and when `=` follows, the
remaining tokens of the run are stored verbatim as the `Custom` payload; in
particular `with = foo(1,2), trim` parses to
`[With (foo (1,2)), Trim]` with the payload preserved token-for-token. -/
theorem c9_with_sanitizer :
    (∀ (s : Span) (t : Tok) (rest : List Tok),
      parse_sanitize_attr (.ident nWith s :: t :: rest) =
        if is_eq t then .ok ⟨s, .With rest⟩
        else .error (.err (spanJoin s t.span) withExpectedEqMsg)) ∧
    (∀ s : Span,
      parse_sanitize_attr [.ident nWith s] = .error (.err s withMissingEqMsg)) ∧
    parse_sanitize_attrs
      [.ident nWith 1, .punct '=' 2, .ident nFoo 3,
       .group .paren [.lit 1 4, .punct ',' 5, .lit 2 6] 7,
       .punct ',' 8, .ident nTrim 9] =
      .ok [⟨1, .With [.ident nFoo 3,
              .group .paren [.lit 1 4, .punct ',' 5, .lit 2 6] 7]⟩,
           ⟨9, .Trim⟩] := by
  refine ⟨?_, ?_, rfl⟩
  · intro s t rest
    simp [parse_sanitize_attr, nWith]
  · intro s
    simp [parse_sanitize_attr, nWith]

/-- C4 (amended): every parsing and validation function returns a result
carrying either a value or the first error encountered (fail-fast, no
partial result), except for the panics the code performs through `unwrap`:
`parse_validate_attrs` panics when the validator stream ends with a comma
(and `parse_attributes` inherits that through the `validate(...)` group),
and `parse_type_name_and_inner_type` panics on a zero-field tuple struct.
Away from those shapes, no panic occurs. -/
theorem c4_fail_fast_amended :
    (∀ ts : List Tok, endsWithComma ts = false →
      panicFree (parse_validate_attrs ts) = true) ∧
    (∀ ts : List Tok, panicFree (parse_sanitize_attrs ts) = true) ∧
    (∀ ts : List Tok, topLevelGroupsCommaSafe ts = true →
      panicFree (parse_attributes ts) = true) ∧
    (∀ input : DeriveInput, isZeroFieldTupleStruct input = false →
      panicFree (parse_type_name_and_inner_type input) = true) ∧
    (∀ input : DeriveInput, isZeroFieldTupleStruct input = true →
      parse_type_name_and_inner_type input = .error (.panic unwrapNoneMsg)) := by
  refine ⟨fun ts h => parse_validate_attrs_panicFree h,
    parse_sanitize_attrs_panicFree,
    fun ts h => parse_attributes_panicFree h, ?_, ?_⟩
  · intro input h
    obtain ⟨name, isp, sp, data⟩ := input
    match data with
    | .dataEnum => rfl
    | .dataUnion => rfl
    | .dataStruct .named => rfl
    | .dataStruct .unit => rfl
    | .dataStruct (.unnamed []) => simp [isZeroFieldTupleStruct] at h
    | .dataStruct (.unnamed (seg :: rest)) =>
      unfold parse_type_name_and_inner_type
      repeat' split
      all_goals first | rfl | simp_all
  · intro input h
    obtain ⟨name, isp, sp, data⟩ := input
    match data with
    | .dataEnum => simp [isZeroFieldTupleStruct] at h
    | .dataUnion => simp [isZeroFieldTupleStruct] at h
    | .dataStruct .named => simp [isZeroFieldTupleStruct] at h
    | .dataStruct .unit => simp [isZeroFieldTupleStruct] at h
    | .dataStruct (.unnamed []) => rfl
    | .dataStruct (.unnamed (seg :: rest)) => simp [isZeroFieldTupleStruct] at h

/-- C4 (witness): the amended no-panic statements instantiated at concrete
inputs. -/
theorem c4_fail_fast_amended_witness :
    panicFree (parse_validate_attrs [.ident nPresent 1]) = true ∧
    panicFree (parse_sanitize_attrs [.ident nTrim 1]) = true ∧
    panicFree (parse_attributes
      [.ident nValidate 1, .group .paren [.ident nPresent 2] 3]) = true ∧
    panicFree (parse_type_name_and_inner_type
      ⟨nPair, 1, 2, .dataEnum⟩) = true ∧
    parse_type_name_and_inner_type ⟨nPair, 1, 2, .dataStruct (.unnamed [])⟩ =
      .error (.panic unwrapNoneMsg) :=
  ⟨c4_fail_fast_amended.1 _ rfl,
   c4_fail_fast_amended.2.1 _,
   c4_fail_fast_amended.2.2.1 _ rfl,
   c4_fail_fast_amended.2.2.2.1 _ rfl,
   c4_fail_fast_amended.2.2.2.2 _ rfl⟩

/-- C5 (amended): enums, unions, structs with named fields and unit structs
fail with the error "#[nutype] can be used only with tuple structs."
attributed to the whole type's span; but a zero-field tuple struct panics
(`unwrap` of a missing first field) instead of producing that error, and a
tuple struct with more than one field is not rejected — it behaves exactly
as if only its first field were declared. -/
theorem c5_shape_errors_amended :
    (∀ input : DeriveInput,
      (input.data = .dataEnum ∨ input.data = .dataUnion ∨
       input.data = .dataStruct .named ∨ input.data = .dataStruct .unit) →
      parse_type_name_and_inner_type input =
        .error (.err input.span onlyTupleStructsMsg)) ∧
    (∀ input : DeriveInput, isZeroFieldTupleStruct input = true →
      parse_type_name_and_inner_type input = .error (.panic unwrapNoneMsg)) ∧
    (∀ (name : String) (isp sp : Span) (f : SynField) (rest : List SynField),
      parse_type_name_and_inner_type
        ⟨name, isp, sp, .dataStruct (.unnamed (f :: rest))⟩ =
      parse_type_name_and_inner_type
        ⟨name, isp, sp, .dataStruct (.unnamed [f])⟩) := by
  refine ⟨?_, ?_, ?_⟩
  · intro input hshape
    obtain ⟨name, isp, sp, data⟩ := input
    rcases hshape with h | h | h | h <;>
      (simp only at h; rw [h]) <;> rfl
  · intro input h
    obtain ⟨name, isp, sp, data⟩ := input
    match data with
    | .dataEnum => simp [isZeroFieldTupleStruct] at h
    | .dataUnion => simp [isZeroFieldTupleStruct] at h
    | .dataStruct .named => simp [isZeroFieldTupleStruct] at h
    | .dataStruct .unit => simp [isZeroFieldTupleStruct] at h
    | .dataStruct (.unnamed []) => rfl
    | .dataStruct (.unnamed (seg :: rest)) => simp [isZeroFieldTupleStruct] at h
  · intro name isp sp f rest
    rfl

/-- C5 (witness): the amended shape-error statements instantiated at
concrete inputs. -/
theorem c5_shape_errors_amended_witness :
    parse_type_name_and_inner_type ⟨nPair, 1, 2, .dataEnum⟩ =
      .error (.err 2 onlyTupleStructsMsg) ∧
    parse_type_name_and_inner_type ⟨nPair, 1, 2, .dataStruct (.unnamed [])⟩ =
      .error (.panic unwrapNoneMsg) ∧
    parse_type_name_and_inner_type
      ⟨nPair, 1, 2, .dataStruct (.unnamed
        [⟨.path tI32 3, 4⟩, ⟨.path tI32 5, 6⟩])⟩ =
    parse_type_name_and_inner_type
      ⟨nPair, 1, 2, .dataStruct (.unnamed [⟨.path tI32 3, 4⟩])⟩ :=
  ⟨c5_shape_errors_amended.1 ⟨nPair, 1, 2, .dataEnum⟩ (Or.inl rfl),
   c5_shape_errors_amended.2.1 _ rfl,
   c5_shape_errors_amended.2.2 nPair 1 2 ⟨.path tI32 3, 4⟩ [⟨.path tI32 5, 6⟩]⟩

/-- C8: the inner-type classifier of `parse.rs` accepts exactly the closed
vocabulary `String`, `u8`–`u128`, `usize`, `i8`–`i128`, `isize`, `f32`,
`f64`, mapping each spelling to its kind, and fails on every other spelling
with the message "#[nutype] does not support `<name>` as inner type" at the
field's span.  (The `NumberType` enum declared in `models.rs` carries only
`I32`, contradicting these match arms — see the results record.) -/
theorem c8_inner_type_vocabulary :
    classifyInnerType tString = some .String ∧
    classifyInnerType tU8 = some (.Number .U8) ∧
    classifyInnerType tU16 = some (.Number .U16) ∧
    classifyInnerType tU32 = some (.Number .U32) ∧
    classifyInnerType tU64 = some (.Number .U64) ∧
    classifyInnerType tU128 = some (.Number .U128) ∧
    classifyInnerType tUsize = some (.Number .Usize) ∧
    classifyInnerType tI8 = some (.Number .I8) ∧
    classifyInnerType tI16 = some (.Number .I16) ∧
    classifyInnerType tI32 = some (.Number .I32) ∧
    classifyInnerType tI64 = some (.Number .I64) ∧
    classifyInnerType tI128 = some (.Number .I128) ∧
    classifyInnerType tIsize = some (.Number .Isize) ∧
    classifyInnerType tF32 = some (.Number .F32) ∧
    classifyInnerType tF64 = some (.Number .F64) ∧
    (∀ tp : String, tp ∉ innerTypeVocabulary → classifyInnerType tp = none) ∧
    (∀ (name : String) (isp sp : Span) (tp : String) (tysp fsp : Span)
       (rest : List SynField),
      parse_type_name_and_inner_type
        ⟨name, isp, sp, .dataStruct (.unnamed (⟨.path tp tysp, fsp⟩ :: rest))⟩ =
      match classifyInnerType tp with
      | some inner => .ok ⟨⟨name, isp⟩, inner⟩
      | none => .error (.err fsp (unsupportedInnerTypeMsg tp))) := by
  refine ⟨rfl, rfl, rfl, rfl, rfl, rfl, rfl, rfl, rfl, rfl, rfl, rfl, rfl,
    rfl, rfl, ?_, ?_⟩
  · intro tp hmem
    simp only [innerTypeVocabulary, tString, tU8, tU16, tU32, tU64, tU128,
      tUsize, tI8, tI16, tI32, tI64, tI128, tIsize, tF32, tF64,
      List.mem_cons, List.mem_singleton, not_or] at hmem
    obtain ⟨n1, n2, n3, n4, n5, n6, n7, n8, n9, n10, n11, n12, n13, n14,
      n15⟩ := hmem
    simp [classifyInnerType, n1, n2, n3, n4, n5, n6, n7, n8, n9, n10, n11,
      n12, n13, n14, n15]
  · intro name isp sp tp tysp fsp rest
    rfl

/-- C8 (witness): the rejection of a spelling outside the vocabulary,
instantiated at `Foo`. -/
theorem c8_inner_type_vocabulary_witness :
    classifyInnerType tFoo = none ∧
    parse_type_name_and_inner_type
      ⟨nPair, 1, 2, .dataStruct (.unnamed [⟨.path tFoo 3, 4⟩])⟩ =
      .error (.err 4 (unsupportedInnerTypeMsg tFoo)) := by
  constructor
  · exact c8_inner_type_vocabulary.2.2.2.2.2.2.2.2.2.2.2.2.2.2.2.1 tFoo
      (by decide)
  · have h := c8_inner_type_vocabulary.2.2.2.2.2.2.2.2.2.2.2.2.2.2.2.2
      nPair 1 2 tFoo 3 4 []
    simpa using h

/-- C10: the span attached to every successfully parsed sanitizer or
validator descriptor is exactly the span of the rule's leading identifier
token (for a validator, the identifier possibly follows one skipped
comma). -/
theorem c10_rule_spans :
    (∀ (ts : List Tok) (out : SpannedStringSanitizer),
      parse_sanitize_attr ts = .ok out →
      ∃ name rest, ts = .ident name out.span :: rest) ∧
    (∀ (ts rest : List Tok) (v : SpannedStringValidator),
      parse_validation_rule ts = .ok (some (v, rest)) →
      (∃ name r0, ts = .ident name v.span :: r0) ∨
      (∃ cs name r0, ts = .punct ',' cs :: .ident name v.span :: r0)) :=
  ⟨fun _ _ h => parse_sanitize_attr_ok_shape h,
   fun _ _ _ h => (parse_validation_rule_shape h).1⟩

/-- C10 (witness): the span statements instantiated at one-rule runs. -/
theorem c10_rule_spans_witness :
    (∃ name rest, [Tok.ident nTrim 7] =
      Tok.ident name (Spanned.span ⟨7, StringSanitizer.Trim⟩) :: rest) ∧
    ((∃ name r0, [Tok.ident nPresent 9] =
        Tok.ident name (Spanned.span ⟨9, StringValidator.Present⟩) :: r0) ∨
     (∃ cs name r0, [Tok.ident nPresent 9] =
        Tok.punct ',' cs ::
          Tok.ident name (Spanned.span ⟨9, StringValidator.Present⟩) :: r0)) :=
  ⟨c10_rule_spans.1 [.ident nTrim 7] ⟨7, .Trim⟩ rfl,
   c10_rule_spans.2 [.ident nPresent 9] [] ⟨9, .Present⟩ rfl⟩

/-- C2: for every valid rule sequence (renderable sanitizers, no duplicate
single-occurrence validators, satisfiable length range), parsing the
declared token stream succeeds at every stage — sanitizer runs, validator
stream, attribute shell, and semantic validation — and the rule order in
every resulting model equals the declaration order. -/
theorem c2_order_preserved (sans : List SpannedStringSanitizer)
    (vals : List SpannedStringValidator)
    (h1 : sanitizersRenderable sans = true)
    (h2 : validatorsSemOk (vals.map (·.item))) :
    parse_sanitize_attrs (renderSanitizers sans) = .ok sans ∧
    parse_validate_attrs (renderValidators vals) = .ok vals ∧
    parse_raw_attributes (renderAttributeStream sans vals) = .ok ⟨sans, vals⟩ ∧
    parse_attributes (renderAttributeStream sans vals) =
      .ok (match vals with
        | [] => .From (sans.map (·.item))
        | _ :: _ => .TryFrom (sans.map (·.item)) (vals.map (·.item))) := by
  have hs := parse_sanitize_attrs_render h1
  have hv := parse_validate_attrs_render vals
  have hraw : parse_raw_attributes (renderAttributeStream sans vals) =
      .ok ⟨sans, vals⟩ := by
    unfold parse_raw_attributes parse_nutype_attributes renderAttributeStream
    simp [parse_nutype_attributes.go.eq_def, try_unwrap_ident,
      nSanitize, nValidate, hs, hv]
  refine ⟨hs, hv, hraw, ?_⟩
  unfold parse_attributes
  rw [hraw]
  exact validate_string_meta_render h2

/-- C2 (witness): the order-preservation statement instantiated at the
declaration `sanitize(trim) validate(present)`. -/
theorem c2_order_preserved_witness :
    parse_sanitize_attrs (renderSanitizers [⟨1, .Trim⟩]) = .ok [⟨1, .Trim⟩] ∧
    parse_validate_attrs (renderValidators [⟨2, .Present⟩]) =
      .ok [⟨2, .Present⟩] ∧
    parse_raw_attributes (renderAttributeStream [⟨1, .Trim⟩] [⟨2, .Present⟩]) =
      .ok ⟨[⟨1, .Trim⟩], [⟨2, .Present⟩]⟩ ∧
    parse_attributes (renderAttributeStream [⟨1, .Trim⟩] [⟨2, .Present⟩]) =
      .ok (.TryFrom [.Trim] [.Present]) := by
  have h := c2_order_preserved [⟨1, .Trim⟩] [⟨2, .Present⟩] rfl
    ⟨by simp [isMaxLen], by simp [isMinLen], by simp [isPresent],
     by
      intro m n hm hn
      simp [StringValidator.MaxLen.injEq] at hm⟩
  exact ⟨h.1, h.2.1, h.2.2.1, h.2.2.2⟩

/-- C3: whenever `parse_attributes` succeeds, the result is the infallible
`From` variant (sanitizers only) exactly when the parsed validator sequence
is empty, and otherwise the fallible `TryFrom` variant carrying the parsed
validators. -/
theorem c3_fallibility (input : List Tok) (m : NewtypeStringMeta)
    (h : parse_attributes input = .ok m) :
    ∃ raw, parse_raw_attributes input = .ok raw ∧
      ((raw.validators = [] ∧ m = .From (raw.sanitizers.map (·.item))) ∨
       (raw.validators ≠ [] ∧
        m = .TryFrom (raw.sanitizers.map (·.item))
          (raw.validators.map (·.item)))) := by
  unfold parse_attributes at h
  split at h
  · simp at h
  · rename_i raw hraw
    refine ⟨raw, hraw, ?_⟩
    unfold validate_string_meta at h
    split at h
    · simp at h
    · split at h
      · rename_i heq
        simp only [Except.ok.injEq] at h
        exact Or.inl ⟨heq, h.symm⟩
      · rename_i v rest heq
        simp only [Except.ok.injEq] at h
        exact Or.inr ⟨heq, h.symm⟩

/-- C3 (witness): the fallibility statement instantiated at the attribute
stream `validate(present)`, whose parse yields the fallible variant. -/
theorem c3_fallibility_witness :
    ∃ raw, parse_raw_attributes
        [.ident nValidate 1, .group .paren [.ident nPresent 2] 3] =
        .ok raw ∧
      ((raw.validators = [] ∧
        (NewtypeMeta.TryFrom [] [StringValidator.Present] : NewtypeStringMeta) =
          .From (raw.sanitizers.map (·.item))) ∨
       (raw.validators ≠ [] ∧
        (NewtypeMeta.TryFrom [] [StringValidator.Present] : NewtypeStringMeta) =
          .TryFrom (raw.sanitizers.map (·.item))
            (raw.validators.map (·.item)))) :=
  c3_fallibility [.ident nValidate 1, .group .paren [.ident nPresent 2] 3]
    (.TryFrom [] [.Present]) rfl

end Nutype
